import Mathlib

/-!
# Verification of the CVector virtual energy-trading engine

The repository ships a React frontend (`frontend/src/App.js`) and documents a
FastAPI backend (`backend/simulation.py`) whose market-simulation core is
described in `spec.md`: price-series generation, submission validation
(cap and deadline enforcement), the fill rule, and PnL computation.
The backend source itself is not part of the checked-in tree, so the engine
below is modelled from the specification text, with explicit state passing
for the order store and an injected clock for the deadline guard.
Prices and quantities ("positive reals" in the spec) are modelled as
rationals so every definition stays executable and decidable.
The frontend helper `toISODateInputString` is embedded directly from
`frontend/src/App.js`.
-/

namespace CVector

/-- Order side: `buy` or `sell`. -/
inductive Side where
  | buy
  | sell
deriving DecidableEq, Repr

/-- Modelled from the spec: (§3 Data Model) one submission.  `date` is the
opaque delivery-date key (modelled as a day number), `hour` the integer
hour-ending label (validated to 0–23), `price`/`quantity` positive rationals,
`created_at` the injected submission timestamp. -/
structure Order where
  id : Nat
  date : Nat
  hour : Int
  side : Side
  price : ℚ
  quantity : ℚ
  created_at : Int
deriving DecidableEq, Repr

/-- One (hour, price) pair of a price series. -/
structure PricePoint where
  hour : Nat
  price : ℚ
deriving DecidableEq, Repr

/-- Source tag of a price series: `synthetic` or `external`. -/
inductive PriceSource where
  | synthetic
  | external
deriving DecidableEq, Repr

/-- Modelled from the spec: (§3) a labeled set of 24 (hour, price) pairs for
one calendar date plus a source tag. -/
structure PriceSeries where
  date : Nat
  source : PriceSource
  series : List PricePoint
deriving DecidableEq, Repr

/-! ## PriceProvider (modelled from the spec, §4.1)

The spec leaves the exact synthetic formulas open (§9: "an implementer should
choose any deterministic, date-seeded diurnal-curve-plus-noise generator").
We fix a concrete deterministic choice: a diurnal base curve with morning and
evening peaks plus a hash-style perturbation seeded by date and hour. -/

/-- Modelled from the spec: smooth diurnal base curve with morning and
evening peaks (missing `backend/simulation.py`). -/
def diurnalBase (hour : Nat) : ℚ :=
  if hour < 6 then 35
  else if hour < 9 then 52
  else if hour < 17 then 44
  else if hour < 21 then 58
  else 38

/-- Modelled from the spec: deterministic date-and-hour seeded perturbation in
`[0, 9.6]` added to the day-ahead base curve (missing `backend/simulation.py`). -/
def daNoise (date hour : Nat) : ℚ :=
  (((date * 2654435761 + hour * 40503) % 97 : Nat) : ℚ) / 10

/-- Modelled from the spec: synthetic day-ahead price, a deterministic pure
function of date and hour (missing `backend/simulation.py`). -/
def syntheticDAPrice (date hour : Nat) : ℚ :=
  diurnalBase hour + daNoise date hour

/-- Modelled from the spec: bounded, date-and-hour seeded real-time
perturbation in `[-6, 6]` (missing `backend/simulation.py`). -/
def rtPerturb (date hour : Nat) : ℚ :=
  (((date * 69069 + hour * 1103515245 + 12345) % 121 : Nat) : ℚ) / 10 - 6

/-- Modelled from the spec: synthetic real-time price, the day-ahead value at
the same hour plus a bounded deterministic perturbation
(missing `backend/simulation.py`). -/
def syntheticRTPrice (date hour : Nat) : ℚ :=
  syntheticDAPrice date hour + rtPerturb date hour

/-- Modelled from the spec: the synthetic day-ahead series for a date, one
point per hour 0–23 (missing `backend/simulation.py`). -/
def syntheticDASeries (date : Nat) : List PricePoint :=
  (List.range 24).map fun h => ⟨h, syntheticDAPrice date h⟩

/-- Modelled from the spec: the synthetic real-time series for a date
(missing `backend/simulation.py`). -/
def syntheticRTSeries (date : Nat) : List PricePoint :=
  (List.range 24).map fun h => ⟨h, syntheticRTPrice date h⟩

/-- Modelled from the spec: (§6) one entry of an external day-ahead fetch
result.  `hour` is an arbitrary integer as received; `price = none` models a
non-numeric price field (missing `backend/simulation.py`). -/
structure ExternalPoint where
  hour : Int
  price : Option ℚ
deriving DecidableEq, Repr

/-- Modelled from the spec: the unique numeric price an external result gives
for hour `h`, if it gives exactly one entry for `h` and that entry is numeric
(missing `backend/simulation.py`). -/
def entryAt (entries : List ExternalPoint) (h : Nat) : Option ℚ :=
  match entries.filter (fun e => e.hour == (h : Int)) with
  | [e] => e.price
  | _ => none

/-- Modelled from the spec: (§4.1, §9) all-or-nothing validation of an
external fetch result — exactly 24 numeric entries, hours 0–23 covered once
each; otherwise the whole result is discarded
(missing `backend/simulation.py`). -/
def validateExternal (entries : List ExternalPoint) : Option (List PricePoint) :=
  if entries.length = 24 && (List.range 24).all (fun h => (entryAt entries h).isSome) then
    some ((List.range 24).map fun h => ⟨h, (entryAt entries h).getD 0⟩)
  else
    none

/-- Modelled from the spec: (§4.1, §6) produce the day-ahead series for a
date.  `fetched = none` models no external source configured or a failed
fetch; `callTime` is the wall-clock instant of the call, which the generator
must not depend on (missing `backend/simulation.py`). -/
def getDayAheadPrices (date : Nat) (fetched : Option (List ExternalPoint))
    (callTime : Int) : PriceSeries :=
  match fetched with
  | some entries =>
    match validateExternal entries with
    | some series => ⟨date, .external, series⟩
    | none => ⟨date, .synthetic, syntheticDASeries date⟩
  | none => ⟨date, .synthetic, syntheticDASeries date⟩

/-- Modelled from the spec: (§4.1, §6) the real-time series is always
synthetic (missing `backend/simulation.py`). -/
def getRealTimePrices (date : Nat) (callTime : Int) : PriceSeries :=
  ⟨date, .synthetic, syntheticRTSeries date⟩

/-! ## DeadlineGuard (modelled from the spec, §4.2)

Local time is modelled as minutes: day `d` at hour `h`, minute `m` is
`d * 1440 + h * 60 + m`, and a delivery date `D` is day number `D`. -/

/-- Minutes-since-epoch timestamp of local time `h:m` on day `day`. -/
def localMinutes (day : Int) (h m : Nat) : Int :=
  day * 1440 + h * 60 + m

/-- Modelled from the spec: (§4.2) the submission cutoff for a delivery date,
11:00 local time on the calendar day immediately preceding it
(missing `backend/simulation.py`). -/
def cutoff (deliveryDate : Nat) : Int :=
  localMinutes ((deliveryDate : Int) - 1) 11 0

/-- Modelled from the spec: (§4.2) the submission window is open iff `now` is
strictly before the cutoff (missing `backend/simulation.py`). -/
def isOpen (deliveryDate : Nat) (now : Int) : Bool :=
  now < cutoff deliveryDate

/-! ## OrderStore and submission path (modelled from the spec, §4.3, §6, §7) -/

/-- The persisted order set plus the next id to assign. -/
structure Store where
  orders : List Order
  nextId : Nat
deriving DecidableEq, Repr

/-- The empty store. -/
def emptyStore : Store := ⟨[], 0⟩

/-- Number of stored orders for a (date, hour) pair. -/
def countAt (s : Store) (date : Nat) (hour : Int) : Nat :=
  (s.orders.filter fun o => decide (o.date = date ∧ o.hour = hour)).length

/-- Modelled from the spec: (§7) the submission error taxonomy. -/
inductive SubmitError where
  | validation
  | deadlinePassed
  | hourFull
deriving DecidableEq, Repr

/-- Modelled from the spec: (§7) the deletion error. -/
inductive DeleteError where
  | notFound
deriving DecidableEq, Repr

/-- Modelled from the spec: (§7) recognize a raw side string. -/
def parseSide (s : String) : Option Side :=
  if s = "buy" then some Side.buy
  else if s = "sell" then some Side.sell
  else none

/-- Modelled from the spec: (§6, §7) submit an order.  All errors are
detected before any mutation: validation (hour range, positive price and
quantity, recognized side), then the deadline, then the per-hour cap; only
then is the order assigned an id and appended
(missing `backend/simulation.py`). -/
def submitOrder (s : Store) (date : Nat) (hour : Int) (side : String)
    (price quantity : ℚ) (now : Int) : Except SubmitError (Order × Store) :=
  match parseSide side with
  | none => .error .validation
  | some sd =>
    if hour < 0 || 23 < hour || price ≤ 0 || quantity ≤ 0 then
      .error .validation
    else if !isOpen date now then
      .error .deadlinePassed
    else if 10 ≤ countAt s date hour then
      .error .hourFull
    else
      let o : Order := ⟨s.nextId, date, hour, sd, price, quantity, now⟩
      .ok (o, ⟨s.orders ++ [o], s.nextId + 1⟩)

/-- Modelled from the spec: (§4.3) list the stored orders for a date in
submission order (missing `backend/simulation.py`). -/
def listOrders (s : Store) (date : Nat) : List Order :=
  s.orders.filter fun o => decide (o.date = date)

/-- Modelled from the spec: (§4.3) delete the order with the given id and
date; `NotFound` if no such order exists (missing `backend/simulation.py`). -/
def deleteOrder (s : Store) (i : Nat) (date : Nat) : Except DeleteError Store :=
  if s.orders.any (fun o => decide (o.id = i ∧ o.date = date)) then
    .ok ⟨s.orders.filter (fun o => decide ¬(o.id = i ∧ o.date = date)), s.nextId⟩
  else
    .error .notFound

/-- One store-touching operation of the external interface (§6). -/
inductive Op where
  | submit (date : Nat) (hour : Int) (side : String) (price quantity : ℚ) (now : Int)
  | delete (i : Nat) (date : Nat)
  | list (date : Nat)

/-- Apply one operation to the store; failing operations leave the store
unchanged (spec §7: all errors are detected before any mutation). -/
def applyOp (s : Store) : Op → Store
  | .submit date hour side price quantity now =>
    match submitOrder s date hour side price quantity now with
    | .ok (_, s') => s'
    | .error _ => s
  | .delete i date =>
    match deleteOrder s i date with
    | .ok s' => s'
    | .error _ => s
  | .list _ => s

/-- The store reached from the empty store by a sequence of operations. -/
def execOps (ops : List Op) : Store :=
  ops.foldl applyOp emptyStore

/-! ## MatchingEngine and PnLCalculator (modelled from the spec, §4.4, §4.5) -/

/-- Modelled from the spec: (§4.4) the fill rule.  A buy fills iff its price
is at least the day-ahead price at its hour; a sell fills iff its price is at
most the day-ahead price (missing `backend/simulation.py`). -/
def fill (o : Order) (daPriceAtHour : ℚ) : Bool :=
  match o.side with
  | .buy => daPriceAtHour ≤ o.price
  | .sell => o.price ≤ daPriceAtHour

/-- Modelled from the spec: (§4.5) the per-order PnL record
(missing `backend/simulation.py`). -/
structure PnLDetail where
  order_id : Nat
  hour : Int
  side : Side
  quantity : ℚ
  bid_price : ℚ
  day_ahead_price : ℚ
  real_time_price : ℚ
  filled : Bool
  pnl : ℚ
deriving DecidableEq, Repr

/-- Modelled from the spec: (§4.5) build the PnL record for one order from
its fill outcome and the DA and RT prices at its hour
(missing `backend/simulation.py`). -/
def pnlDetail (o : Order) (isFilled : Bool) (da rt : ℚ) : PnLDetail :=
  { order_id := o.id
    hour := o.hour
    side := o.side
    quantity := o.quantity
    bid_price := o.price
    day_ahead_price := da
    real_time_price := rt
    filled := isFilled
    pnl :=
      if isFilled then
        match o.side with
        | .buy => o.quantity * (rt - da)
        | .sell => -(o.quantity * (rt - da))
      else 0 }

/-! ## Theorems: fill rule and PnL -/

/-- C1: `fill` returns true for a buy order iff `order.price ≥ daPriceAtHour`
and for a sell order iff `order.price ≤ daPriceAtHour`; at equality the order
fills on either side. -/
theorem fill_rule_correct (o : Order) (da : ℚ) :
    (fill o da = true ↔
      (o.side = Side.buy ∧ da ≤ o.price) ∨ (o.side = Side.sell ∧ o.price ≤ da)) ∧
    (o.price = da → fill o da = true) := by
  constructor
  · cases h : o.side <;> simp [fill, h]
  · intro hpq
    cases h : o.side <;> simp [fill, h, hpq]

/-- Concrete instance of the fill rule: a buy at 60 fills against DA 50, a
sell at 60 fills against DA 70, and both sides fill at DA 60 exactly. -/
theorem fill_rule_correct_witness :
    fill ⟨0, 0, 8, Side.buy, 60, 1, 0⟩ 50 = true ∧
    fill ⟨1, 0, 8, Side.sell, 60, 1, 0⟩ 70 = true ∧
    fill ⟨2, 0, 8, Side.buy, 60, 1, 0⟩ 60 = true := by
  refine ⟨?_, ?_, ?_⟩
  · exact (fill_rule_correct ⟨0, 0, 8, Side.buy, 60, 1, 0⟩ 50).1.mpr
      (Or.inl ⟨rfl, by norm_num⟩)
  · exact (fill_rule_correct ⟨1, 0, 8, Side.sell, 60, 1, 0⟩ 70).1.mpr
      (Or.inr ⟨rfl, by norm_num⟩)
  · exact (fill_rule_correct ⟨2, 0, 8, Side.buy, 60, 1, 0⟩ 60).2 rfl

/-- C2: the PnL record carries the fill outcome; pnl is 0 when unfilled,
`quantity * (rt - da)` for a filled buy, and `-(quantity * (rt - da))` for a
filled sell. -/
theorem pnl_detail_correct (o : Order) (f : Bool) (da rt : ℚ) :
    (pnlDetail o f da rt).filled = f ∧
    (f = false → (pnlDetail o f da rt).pnl = 0) ∧
    (f = true → o.side = Side.buy →
      (pnlDetail o f da rt).pnl = o.quantity * (rt - da)) ∧
    (f = true → o.side = Side.sell →
      (pnlDetail o f da rt).pnl = -(o.quantity * (rt - da))) := by
  refine ⟨rfl, ?_, ?_, ?_⟩
  · rintro rfl; simp [pnlDetail]
  · rintro rfl hs; simp [pnlDetail, hs]
  · rintro rfl hs; simp [pnlDetail, hs]

/-- The spec's worked PnL examples: a filled buy of 1.5 MWh at DA 60, RT 65
yields 7.5; a filled sell of 2 MWh at DA 60, RT 55 yields 10; an unfilled
order yields 0 and reports `filled = false`. -/
theorem pnl_detail_correct_witness :
    (pnlDetail ⟨0, 0, 8, Side.buy, 60, 3/2, 0⟩ true 60 65).pnl = 15/2 ∧
    (pnlDetail ⟨1, 0, 8, Side.sell, 60, 2, 0⟩ true 60 55).pnl = 10 ∧
    (pnlDetail ⟨2, 0, 8, Side.buy, 60, 2, 0⟩ false 60 55).pnl = 0 ∧
    (pnlDetail ⟨2, 0, 8, Side.buy, 60, 2, 0⟩ false 60 55).filled = false := by
  refine ⟨?_, ?_, ?_, ?_⟩
  · rw [(pnl_detail_correct ⟨0, 0, 8, Side.buy, 60, 3/2, 0⟩ true 60 65).2.2.1 rfl rfl]
    norm_num
  · rw [(pnl_detail_correct ⟨1, 0, 8, Side.sell, 60, 2, 0⟩ true 60 55).2.2.2 rfl rfl]
    norm_num
  · exact (pnl_detail_correct ⟨2, 0, 8, Side.buy, 60, 2, 0⟩ false 60 55).2.1 rfl
  · exact (pnl_detail_correct ⟨2, 0, 8, Side.buy, 60, 2, 0⟩ false 60 55).1

/-! ## Store well-formedness -/

/-- Well-formedness of a store: the per-hour cap holds everywhere and every
stored order satisfies the field invariants of spec §3. -/
def StoreWF (s : Store) : Prop :=
  (∀ d h, countAt s d h ≤ 10) ∧
  ∀ o ∈ s.orders, 0 ≤ o.hour ∧ o.hour ≤ 23 ∧ 0 < o.price ∧ 0 < o.quantity

theorem countAt_mk_append (orders : List Order) (o : Order) (n n' : Nat)
    (d : Nat) (h : Int) :
    countAt ⟨orders ++ [o], n⟩ d h =
      countAt ⟨orders, n'⟩ d h + (if o.date = d ∧ o.hour = h then 1 else 0) := by
  by_cases hm : o.date = d ∧ o.hour = h
  · simp [countAt, List.filter_append, hm]
  · simp [countAt, List.filter_append, hm]

theorem submitOrder_ok_inv {s : Store} {date : Nat} {hour : Int} {side : String}
    {price quantity : ℚ} {now : Int} {o : Order} {s' : Store}
    (h : submitOrder s date hour side price quantity now = .ok (o, s')) :
    o.date = date ∧ o.hour = hour ∧ o.price = price ∧ o.quantity = quantity ∧
    0 ≤ hour ∧ hour ≤ 23 ∧ 0 < price ∧ 0 < quantity ∧
    isOpen date now = true ∧ countAt s date hour < 10 ∧
    s'.orders = s.orders ++ [o] ∧ s'.nextId = s.nextId + 1 := by
  unfold submitOrder at h
  cases hps : parseSide side <;> rw [hps] at h
  · exact absurd h (by simp)
  · split at h
    · exact absurd h (by simp)
    · split at h
      · exact absurd h (by simp)
      · split at h
        · exact absurd h (by simp)
        · split at h
          · exact absurd h (by simp)
          · rename_i hvalid hopen hcap
            simp only [Bool.or_eq_true, decide_eq_true_eq, not_or] at hvalid
            simp only [Bool.not_eq_true'] at hopen
            obtain ⟨⟨⟨hh1, hh2⟩, hp1⟩, hq1⟩ := hvalid
            injection h with h
            injection h with ho hs'
            subst ho; subst hs'
            refine ⟨rfl, rfl, rfl, rfl, by omega, by omega, ?_, ?_, ?_, by omega, rfl, rfl⟩
            · exact not_le.mp hp1
            · exact not_le.mp hq1
            · simpa using hopen

theorem deleteOrder_ok_inv {s : Store} {i date : Nat} {s' : Store}
    (h : deleteOrder s i date = .ok s') :
    s'.orders = s.orders.filter (fun o => decide ¬(o.id = i ∧ o.date = date)) ∧
    s'.nextId = s.nextId := by
  unfold deleteOrder at h
  split at h
  · injection h with h
    subst h
    exact ⟨rfl, rfl⟩
  · exact absurd h (by simp)

theorem countAt_applyOp_le {s : Store} (hcap : ∀ d h, countAt s d h ≤ 10)
    (op : Op) : ∀ d h, countAt (applyOp s op) d h ≤ 10 := by
  intro d h
  cases op with
  | list date => exact hcap d h
  | delete i date =>
    simp only [applyOp]
    split
    · rename_i s' hdel
      obtain ⟨hs', -⟩ := deleteOrder_ok_inv hdel
      refine le_trans ?_ (hcap d h)
      simp only [countAt, hs']
      exact List.Sublist.length_le (List.Sublist.filter _ (List.filter_sublist _))
    · exact hcap d h
  | submit date hour side price quantity now =>
    simp only [applyOp]
    split
    · rename_i o s' hsub
      obtain ⟨hod, hoh, -, -, -, -, -, -, -, hlt, hs', -⟩ := submitOrder_ok_inv hsub
      have hco : countAt s' d h =
          countAt s d h + (if o.date = d ∧ o.hour = h then 1 else 0) := by
        have hmk := countAt_mk_append s.orders o s'.nextId s.nextId d h
        calc countAt s' d h = countAt ⟨s'.orders, s'.nextId⟩ d h := rfl
          _ = countAt ⟨s.orders ++ [o], s'.nextId⟩ d h := by rw [hs']
          _ = countAt ⟨s.orders, s.nextId⟩ d h +
              (if o.date = d ∧ o.hour = h then 1 else 0) := hmk
          _ = countAt s d h + (if o.date = d ∧ o.hour = h then 1 else 0) := rfl
      rw [hco]
      split
      · rename_i hm
        obtain ⟨hd1, hh1⟩ := hm
        rw [hd1] at hod
        rw [hh1] at hoh
        rw [← hod, ← hoh] at hlt
        omega
      · have := hcap d h
        omega
    · exact hcap d h

theorem applyOp_WF {s : Store} (hs : StoreWF s) (op : Op) : StoreWF (applyOp s op) := by
  obtain ⟨hcap, hfields⟩ := hs
  refine ⟨countAt_applyOp_le hcap op, ?_⟩
  intro o ho
  cases op with
  | list date => exact hfields o ho
  | delete i date =>
    simp only [applyOp] at ho
    split at ho
    · rename_i s' hdel
      obtain ⟨hs', -⟩ := deleteOrder_ok_inv hdel
      rw [hs'] at ho
      exact hfields o (List.mem_of_mem_filter ho)
    · exact hfields o ho
  | submit date hour side price quantity now =>
    simp only [applyOp] at ho
    split at ho
    · rename_i o' s' hsub
      obtain ⟨-, hoh, hop, hoq, hh0, hh23, hp, hq, -, -, hs', -⟩ := submitOrder_ok_inv hsub
      rw [hs', List.mem_append] at ho
      rcases ho with ho | ho
      · exact hfields o ho
      · obtain rfl : o = o' := by simpa using ho
        exact ⟨hoh ▸ hh0, hoh ▸ hh23, hop ▸ hp, hoq ▸ hq⟩
    · exact hfields o ho

theorem storeWF_empty : StoreWF emptyStore := by
  constructor
  · intro d h; simp [countAt, emptyStore]
  · intro o ho; simp [emptyStore] at ho

theorem storeWF_execOps (ops : List Op) : StoreWF (execOps ops) := by
  suffices h : ∀ s, StoreWF s → StoreWF (ops.foldl applyOp s) from h emptyStore storeWF_empty
  induction ops with
  | nil => intro s hs; simpa using hs
  | cons op rest ih =>
    intro s hs
    simpa [List.foldl_cons] using ih (applyOp s op) (applyOp_WF hs op)

theorem submitOrder_hourFull {s : Store} {date : Nat} {hour : Int} {side : String}
    {sd : Side} {price quantity : ℚ} {now : Int}
    (hside : parseSide side = some sd) (hh0 : 0 ≤ hour) (hh23 : hour ≤ 23)
    (hp : 0 < price) (hq : 0 < quantity) (hopen : isOpen date now = true)
    (hfull : 10 ≤ countAt s date hour) :
    submitOrder s date hour side price quantity now = .error .hourFull := by
  have h1 : ¬(hour < 0) := not_lt.mpr hh0
  have h2 : ¬(23 < hour) := not_lt.mpr hh23
  have h3 : ¬(price ≤ 0) := not_le.mpr hp
  have h4 : ¬(quantity ≤ 0) := not_le.mpr hq
  simp only [submitOrder, hside]
  rw [if_neg (by simp [h1, h2, h3, h4])]
  rw [if_neg (by simp [hopen])]
  rw [if_pos hfull]

theorem submitOrder_deadlinePassed {s : Store} {date : Nat} {hour : Int} {side : String}
    {sd : Side} {price quantity : ℚ} {now : Int}
    (hside : parseSide side = some sd) (hh0 : 0 ≤ hour) (hh23 : hour ≤ 23)
    (hp : 0 < price) (hq : 0 < quantity) (hclosed : isOpen date now = false) :
    submitOrder s date hour side price quantity now = .error .deadlinePassed := by
  have h1 : ¬(hour < 0) := not_lt.mpr hh0
  have h2 : ¬(23 < hour) := not_lt.mpr hh23
  have h3 : ¬(price ≤ 0) := not_le.mpr hp
  have h4 : ¬(quantity ≤ 0) := not_le.mpr hq
  simp only [submitOrder, hside]
  rw [if_neg (by simp [h1, h2, h3, h4])]
  rw [if_pos (by simp [hclosed])]

theorem submitOrder_ok_of {s : Store} {date : Nat} {hour : Int} {side : String}
    {sd : Side} {price quantity : ℚ} {now : Int}
    (hside : parseSide side = some sd) (hh0 : 0 ≤ hour) (hh23 : hour ≤ 23)
    (hp : 0 < price) (hq : 0 < quantity) (hopen : isOpen date now = true)
    (hroom : countAt s date hour < 10) :
    submitOrder s date hour side price quantity now =
      .ok (⟨s.nextId, date, hour, sd, price, quantity, now⟩,
           ⟨s.orders ++ [⟨s.nextId, date, hour, sd, price, quantity, now⟩],
            s.nextId + 1⟩) := by
  have h1 : ¬(hour < 0) := not_lt.mpr hh0
  have h2 : ¬(23 < hour) := not_lt.mpr hh23
  have h3 : ¬(price ≤ 0) := not_le.mpr hp
  have h4 : ¬(quantity ≤ 0) := not_le.mpr hq
  simp only [submitOrder, hside]
  rw [if_neg (by simp [h1, h2, h3, h4])]
  rw [if_neg (by simp [hopen])]
  rw [if_neg (by omega)]

theorem applyOp_submit_error {s : Store} {date : Nat} {hour : Int} {side : String}
    {price quantity : ℚ} {now : Int} {e : SubmitError}
    (h : submitOrder s date hour side price quantity now = .error e) :
    applyOp s (.submit date hour side price quantity now) = s := by
  simp only [applyOp, h]

theorem applyOp_delete_error {s : Store} {i date : Nat} {e : DeleteError}
    (h : deleteOrder s i date = .error e) :
    applyOp s (.delete i date) = s := by
  simp only [applyOp, h]

/-! ## Theorems: cap, deadline, validation, deletion -/

/-- C3: after any sequence of operations starting from the empty store, the
number of stored orders for any (date, hour) is at most 10; a submission
with a recognized side and positive price and quantity, inside the deadline,
attempted when 10 orders already exist for that (date, hour) fails with
`HourFull` and leaves the store unchanged. -/
theorem hour_cap_invariant (ops : List Op) (date : Nat) (hour : Int)
    (side : String) (sd : Side) (price quantity : ℚ) (now : Int)
    (hside : parseSide side = some sd) (hp : 0 < price) (hq : 0 < quantity)
    (hopen : isOpen date now = true) :
    countAt (execOps ops) date hour ≤ 10 ∧
    (countAt (execOps ops) date hour = 10 →
      submitOrder (execOps ops) date hour side price quantity now =
        .error SubmitError.hourFull ∧
      applyOp (execOps ops) (.submit date hour side price quantity now) =
        execOps ops) := by
  obtain ⟨hcap, hfields⟩ := storeWF_execOps ops
  refine ⟨hcap date hour, fun hfull => ?_⟩
  have hlen : 0 < ((execOps ops).orders.filter
      fun o => decide (o.date = date ∧ o.hour = hour)).length := by
    simp only [countAt] at hfull
    omega
  obtain ⟨o, ho⟩ := List.exists_mem_of_length_pos hlen
  have hoMem : o ∈ (execOps ops).orders := List.mem_of_mem_filter ho
  have hohr : o.date = date ∧ o.hour = hour := by
    simpa using List.of_mem_filter ho
  obtain ⟨hh0, hh23, -, -⟩ := hfields o hoMem
  rw [hohr.2] at hh0 hh23
  have hsub : submitOrder (execOps ops) date hour side price quantity now =
      .error SubmitError.hourFull :=
    submitOrder_hourFull hside hh0 hh23 hp hq hopen (by omega)
  exact ⟨hsub, applyOp_submit_error hsub⟩

/-- The 11th submission for a (date, hour) pair that already holds 10 orders
is rejected with `HourFull`. -/
theorem hour_cap_invariant_witness :
    submitOrder (execOps (List.replicate 10 (Op.submit 5 8 "buy" 50 1 0)))
        5 8 "buy" 50 1 0 = .error SubmitError.hourFull :=
  ((hour_cap_invariant (List.replicate 10 (Op.submit 5 8 "buy" 50 1 0))
      5 8 "buy" Side.buy 50 1 0 (by decide) (by norm_num) (by norm_num)
      (by decide)).2 (by decide)).1

/-- C4: the cutoff is 11:00 local time on the day before delivery, the
window is open iff `now` is strictly before it, a valid submission fails
with `DeadlinePassed` exactly when the window is closed, a submission at
exactly 11:00 on `D - 1` is rejected, and the same submission at 10:59 on
`D - 1` succeeds when the hour has room. -/
theorem deadline_correct (s : Store) (D : Nat) (hour : Int) (side : String)
    (sd : Side) (price quantity : ℚ) (now : Int)
    (hside : parseSide side = some sd) (hh0 : 0 ≤ hour) (hh23 : hour ≤ 23)
    (hp : 0 < price) (hq : 0 < quantity) :
    cutoff D = localMinutes ((D : Int) - 1) 11 0 ∧
    (isOpen D now = true ↔ now < cutoff D) ∧
    (submitOrder s D hour side price quantity now =
        .error SubmitError.deadlinePassed ↔ isOpen D now = false) ∧
    (now = localMinutes ((D : Int) - 1) 11 0 →
      submitOrder s D hour side price quantity now =
        .error SubmitError.deadlinePassed) ∧
    (now = localMinutes ((D : Int) - 1) 10 59 → countAt s D hour < 10 →
      ∃ o s', submitOrder s D hour side price quantity now = .ok (o, s')) := by
  refine ⟨rfl, by simp [isOpen], ?_, ?_, ?_⟩
  · cases hoo : isOpen D now
    · simp [submitOrder_deadlinePassed hside hh0 hh23 hp hq hoo]
    · refine iff_of_false ?_ (by simp)
      by_cases hroom : countAt s D hour < 10
      · rw [submitOrder_ok_of hside hh0 hh23 hp hq hoo hroom]
        simp
      · rw [submitOrder_hourFull hside hh0 hh23 hp hq hoo (by omega)]
        simp
  · intro hnow
    have hclosed : isOpen D now = false := by
      simp only [isOpen, cutoff, hnow]
      simp
    exact submitOrder_deadlinePassed hside hh0 hh23 hp hq hclosed
  · intro hnow hroom
    have hopen : isOpen D now = true := by
      simp only [isOpen, cutoff, hnow, localMinutes]
      simp only [decide_eq_true_eq]
      omega
    exact ⟨_, _, submitOrder_ok_of hside hh0 hh23 hp hq hopen hroom⟩

/-- The deadline boundary for delivery day 5: a submission at 11:00 on day 4
is rejected with `DeadlinePassed` and the same submission at 10:59 on day 4
is accepted. -/
theorem deadline_correct_witness :
    submitOrder emptyStore 5 8 "buy" 50 1 (localMinutes 4 11 0) =
      .error SubmitError.deadlinePassed ∧
    ∃ o s', submitOrder emptyStore 5 8 "buy" 50 1 (localMinutes 4 10 59) =
      .ok (o, s') := by
  constructor
  · exact (deadline_correct emptyStore 5 8 "buy" Side.buy 50 1
      (localMinutes 4 11 0) (by decide) (by norm_num) (by norm_num)
      (by norm_num) (by norm_num)).2.2.2.1 (by decide)
  · exact (deadline_correct emptyStore 5 8 "buy" Side.buy 50 1
      (localMinutes 4 10 59) (by decide) (by norm_num) (by norm_num)
      (by norm_num) (by norm_num)).2.2.2.2 (by decide) (by decide)

/-- C5: a submission with an out-of-range hour, non-positive price or
quantity, or an unrecognized side fails with `ValidationError` and stores
nothing, and every order ever stored satisfies `0 ≤ hour ≤ 23`, `price > 0`
and `quantity > 0`. -/
theorem validation_correct :
    (∀ (s : Store) (date : Nat) (hour : Int) (side : String)
        (price quantity : ℚ) (now : Int),
      (hour < 0 ∨ 23 < hour ∨ price ≤ 0 ∨ quantity ≤ 0 ∨ parseSide side = none) →
      submitOrder s date hour side price quantity now =
        .error SubmitError.validation ∧
      applyOp s (.submit date hour side price quantity now) = s) ∧
    (∀ ops, ∀ o ∈ (execOps ops).orders,
      0 ≤ o.hour ∧ o.hour ≤ 23 ∧ 0 < o.price ∧ 0 < o.quantity) := by
  constructor
  · intro s date hour side price quantity now hbad
    have hval : submitOrder s date hour side price quantity now =
        .error SubmitError.validation := by
      cases hps : parseSide side with
      | none => simp [submitOrder, hps]
      | some sd =>
        rcases hbad with hb | hb | hb | hb | hb
        · simp only [submitOrder, hps]
          rw [if_pos (by simp [hb])]
        · simp only [submitOrder, hps]
          rw [if_pos (by simp [hb])]
        · simp only [submitOrder, hps]
          rw [if_pos (by simp [hb])]
        · simp only [submitOrder, hps]
          rw [if_pos (by simp [hb])]
        · rw [hps] at hb
          exact absurd hb (by simp)
    exact ⟨hval, applyOp_submit_error hval⟩
  · exact fun ops => (storeWF_execOps ops).2

/-- The spec's concrete rejected submissions: hour 24, hour −1, price 0,
quantity −1, and side "hold" all fail with `ValidationError`. -/
theorem validation_correct_witness :
    submitOrder emptyStore 5 24 "buy" 50 1 0 = .error SubmitError.validation ∧
    submitOrder emptyStore 5 (-1) "buy" 50 1 0 = .error SubmitError.validation ∧
    submitOrder emptyStore 5 8 "buy" 0 1 0 = .error SubmitError.validation ∧
    submitOrder emptyStore 5 8 "buy" 50 (-1) 0 = .error SubmitError.validation ∧
    submitOrder emptyStore 5 8 "hold" 50 1 0 = .error SubmitError.validation := by
  refine ⟨?_, ?_, ?_, ?_, ?_⟩
  · exact (validation_correct.1 emptyStore 5 24 "buy" 50 1 0
      (Or.inr (Or.inl (by norm_num)))).1
  · exact (validation_correct.1 emptyStore 5 (-1) "buy" 50 1 0
      (Or.inl (by norm_num))).1
  · exact (validation_correct.1 emptyStore 5 8 "buy" 0 1 0
      (Or.inr (Or.inr (Or.inl (by norm_num))))).1
  · exact (validation_correct.1 emptyStore 5 8 "buy" 50 (-1) 0
      (Or.inr (Or.inr (Or.inr (Or.inl (by norm_num)))))).1
  · exact (validation_correct.1 emptyStore 5 8 "hold" 50 1 0
      (Or.inr (Or.inr (Or.inr (Or.inr (by decide)))))).1

/-- C9: deletion succeeds iff an order with that id exists for that date and
removes exactly the matching order, fails with `NotFound` otherwise, and
every failing operation — a `NotFound` delete or a rejected submission —
leaves the stored order set unchanged. -/
theorem delete_correct (s : Store) (i d : Nat) :
    ((∃ o ∈ s.orders, o.id = i ∧ o.date = d) ↔
      ∃ s', deleteOrder s i d = .ok s') ∧
    (deleteOrder s i d = .error DeleteError.notFound ↔
      ¬ ∃ o ∈ s.orders, o.id = i ∧ o.date = d) ∧
    (∀ s', deleteOrder s i d = .ok s' →
      s'.orders = s.orders.filter fun o => decide ¬(o.id = i ∧ o.date = d)) ∧
    (∀ e, deleteOrder s i d = .error e → applyOp s (.delete i d) = s) ∧
    (∀ (date : Nat) (hour : Int) (side : String) (price quantity : ℚ)
        (now : Int) (e : SubmitError),
      submitOrder s date hour side price quantity now = .error e →
      applyOp s (.submit date hour side price quantity now) = s) := by
  have hany : (s.orders.any fun o => decide (o.id = i ∧ o.date = d)) = true ↔
      ∃ o ∈ s.orders, o.id = i ∧ o.date = d := by
    simp [List.any_eq_true]
  refine ⟨?_, ?_, ?_, ?_, ?_⟩
  · by_cases hex : ∃ o ∈ s.orders, o.id = i ∧ o.date = d
    · refine iff_of_true hex
        ⟨⟨s.orders.filter (fun o => decide ¬(o.id = i ∧ o.date = d)), s.nextId⟩, ?_⟩
      simp only [deleteOrder]
      rw [if_pos (hany.mpr hex)]
    · refine iff_of_false hex ?_
      rintro ⟨s', hs'⟩
      simp only [deleteOrder] at hs'
      rw [if_neg (fun hc => hex (hany.mp hc))] at hs'
      exact absurd hs' (by simp)
  · by_cases hex : ∃ o ∈ s.orders, o.id = i ∧ o.date = d
    · refine iff_of_false ?_ (not_not_intro hex)
      simp only [deleteOrder]
      rw [if_pos (hany.mpr hex)]
      simp
    · refine iff_of_true ?_ hex
      simp only [deleteOrder]
      rw [if_neg (fun hc => hex (hany.mp hc))]
  · exact fun s' hs' => (deleteOrder_ok_inv hs').1
  · exact fun e he => applyOp_delete_error he
  · exact fun date hour side price quantity now e he => applyOp_submit_error he

/-- Deleting from the empty store returns `NotFound` and leaves it
unchanged. -/
theorem delete_correct_witness :
    deleteOrder emptyStore 0 0 = .error DeleteError.notFound :=
  (delete_correct emptyStore 0 0).2.1.mpr (by simp [emptyStore])

/-! ## Theorems: price series -/

theorem map_hour_range (f : Nat → ℚ) (n : Nat) :
    ((List.range n).map fun h => (⟨h, f h⟩ : PricePoint)).map PricePoint.hour =
      List.range n := by
  rw [List.map_map]
  exact List.map_id _

theorem validateExternal_some_shape {entries : List ExternalPoint}
    {ps : List PricePoint} (h : validateExternal entries = some ps) :
    ps = (List.range 24).map fun hr => ⟨hr, (entryAt entries hr).getD 0⟩ := by
  unfold validateExternal at h
  split at h
  · injection h with h
    exact h.symm
  · exact absurd h (by simp)

theorem validateExternal_isSome_iff (entries : List ExternalPoint) :
    (validateExternal entries).isSome = true ↔
      entries.length = 24 ∧ ∀ h < 24, (entryAt entries h).isSome = true := by
  unfold validateExternal
  split
  · rename_i hcond
    simp only [Bool.and_eq_true, decide_eq_true_eq, List.all_eq_true,
      List.mem_range] at hcond
    exact iff_of_true rfl hcond
  · rename_i hcond
    simp only [Bool.and_eq_true, decide_eq_true_eq, List.all_eq_true,
      List.mem_range] at hcond
    exact iff_of_false (by simp) hcond

/-- C6: with no external source, repeated day-ahead and real-time queries
for the same date return identical series regardless of the wall-clock call
time, and the series have 24 entries. -/
theorem price_determinism (date : Nat) (t1 t2 : Int) :
    getDayAheadPrices date none t1 = getDayAheadPrices date none t2 ∧
    getRealTimePrices date t1 = getRealTimePrices date t2 ∧
    (getDayAheadPrices date none t1).series.length = 24 ∧
    (getRealTimePrices date t1).series.length = 24 := by
  refine ⟨rfl, rfl, ?_, ?_⟩
  · simp [getDayAheadPrices, syntheticDASeries]
  · simp [getRealTimePrices, syntheticRTSeries]

/-- C7: the day-ahead series is tagged external exactly when the fetched
result supplies all 24 hours as numeric prices exactly once each; any other
shape — or a failed fetch — is discarded in favour of the synthetic series,
with no error surfaced (the provider is a total function into
`PriceSeries`). -/
theorem external_all_or_nothing (date : Nat) (t : Int)
    (entries : List ExternalPoint) :
    ((getDayAheadPrices date (some entries) t).source = PriceSource.external ↔
      entries.length = 24 ∧ ∀ h < 24, (entryAt entries h).isSome = true) ∧
    (validateExternal entries = none →
      getDayAheadPrices date (some entries) t =
        ⟨date, PriceSource.synthetic, syntheticDASeries date⟩) ∧
    (∀ ps, validateExternal entries = some ps →
      getDayAheadPrices date (some entries) t =
        ⟨date, PriceSource.external, ps⟩) ∧
    getDayAheadPrices date none t =
      ⟨date, PriceSource.synthetic, syntheticDASeries date⟩ := by
  refine ⟨?_, ?_, ?_, rfl⟩
  · rw [← validateExternal_isSome_iff entries]
    simp only [getDayAheadPrices]
    cases hv : validateExternal entries with
    | none => simp
    | some ps => simp
  · intro hv
    simp [getDayAheadPrices, hv]
  · intro ps hv
    simp [getDayAheadPrices, hv]

/-- An empty external result is rejected and the provider falls back to the
synthetic series. -/
theorem external_all_or_nothing_witness :
    getDayAheadPrices 7 (some []) 0 =
      ⟨7, PriceSource.synthetic, syntheticDASeries 7⟩ :=
  (external_all_or_nothing 7 0 []).2.1 (by decide)

/-- C8: every produced price series — day-ahead or real-time, synthetic or
external — lists exactly the hours 0 through 23 in order, with no gaps and
no duplicates. -/
theorem series_covers_24_hours (date : Nat)
    (fetched : Option (List ExternalPoint)) (t : Int) :
    (getDayAheadPrices date fetched t).series.map PricePoint.hour =
      List.range 24 ∧
    (getDayAheadPrices date fetched t).series.length = 24 ∧
    (getRealTimePrices date t).series.map PricePoint.hour = List.range 24 ∧
    (getRealTimePrices date t).series.length = 24 := by
  have hrt1 : (getRealTimePrices date t).series.map PricePoint.hour =
      List.range 24 :=
    map_hour_range (syntheticRTPrice date) 24
  have hrt2 : (getRealTimePrices date t).series.length = 24 := by
    simp [getRealTimePrices, syntheticRTSeries]
  have hsyn : (syntheticDASeries date).map PricePoint.hour = List.range 24 :=
    map_hour_range (syntheticDAPrice date) 24
  have hda : ∀ fo, (getDayAheadPrices date fo t).series.map PricePoint.hour =
      List.range 24 := by
    intro fo
    cases fo with
    | none => exact hsyn
    | some entries =>
      simp only [getDayAheadPrices]
      cases hv : validateExternal entries with
      | none => exact hsyn
      | some ps =>
        show ps.map PricePoint.hour = List.range 24
        rw [validateExternal_some_shape hv]
        exact map_hour_range (fun hr => (entryAt entries hr).getD 0) 24
  have hlen : (getDayAheadPrices date fetched t).series.length = 24 := by
    have := congrArg List.length (hda fetched)
    simpa using this
  exact ⟨hda fetched, hlen, hrt1, hrt2⟩

/-! ## Frontend date formatting (`frontend/src/App.js`, lines 7–12)

`toISODateInputString(d)` reads `d.getFullYear()`, `d.getMonth() + 1` and
`d.getDate()`, stringifies them, pads month and day with `padStart(2, '0')`,
and joins them with dashes.  We embed the helper over the three accessor
values, with JS `String(n)` modelled as the usual decimal representation. -/

/-- A JS `Date` as seen through the three accessors the frontend helper
uses: `getFullYear()` (signed), `getMonth()` (0-based month index) and
`getDate()` (day of month). -/
structure JsDate where
  getFullYear : Int
  getMonth : Nat
  getDate : Nat
deriving DecidableEq, Repr

/-- Decimal digits of `n`, least significant first (never empty). -/
def natDigitsRev (n : Nat) : List Nat :=
  if h : n < 10 then [n]
  else n % 10 :: natDigitsRev (n / 10)
decreasing_by exact Nat.div_lt_self (by omega) (by norm_num)

/-- The character for one decimal digit. -/
def digitChar (d : Nat) : Char := Char.ofNat (48 + d)

/-- JS `String(n)` for a natural number: its decimal representation. -/
def jsStringOfNat (n : Nat) : String :=
  ⟨(natDigitsRev n).reverse.map digitChar⟩

/-- JS `String(i)` for an integer: a leading minus sign when negative. -/
def jsStringOfInt (i : Int) : String :=
  if i < 0 then ⟨'-' :: (jsStringOfNat i.natAbs).data⟩
  else jsStringOfNat i.toNat

/-- JS `s.padStart(2, '0')`: left-pad with zeros to length 2. -/
def padStart2 (s : String) : String :=
  ⟨List.replicate (2 - s.data.length) '0' ++ s.data⟩

/-- From `frontend/src/App.js` lines 7–12: format a date as
`${year}-${month}-${day}` with month and day zero-padded to two digits. -/
def toISODateInputString (d : JsDate) : String :=
  jsStringOfInt d.getFullYear ++ "-" ++
    padStart2 (jsStringOfNat (d.getMonth + 1)) ++ "-" ++
    padStart2 (jsStringOfNat d.getDate)

/-- Decimal digit test for a character. -/
def isDigitCh (c : Char) : Bool := decide ('0' ≤ c) && decide (c ≤ '9')

/-- Value of a most-significant-first digit list. -/
def digitsVal (ds : List Nat) : Nat :=
  ds.foldl (fun a d => 10 * a + d) 0

/-- Parse a nonempty all-digit character list as a natural number. -/
def readNatChars (cs : List Char) : Option Nat :=
  if cs = [] then none
  else if cs.all isDigitCh then
    some (digitsVal (cs.map fun c => c.toNat - 48))
  else none

/-- Parse a 10-character `YYYY-MM-DD` string back into its components. -/
def parseISODateInput (s : String) : Option (Int × Nat × Nat) :=
  let cs := s.data
  if cs.length = 10 ∧ cs[4]? = some '-' ∧ cs[7]? = some '-' then
    match readNatChars (cs.take 4), readNatChars ((cs.drop 5).take 2),
        readNatChars (cs.drop 8) with
    | some y, some m, some d => some ((y : Int), m, d)
    | _, _, _ => none
  else none

/-! ### Digit-string lemmas -/

theorem natDigitsRev_lt (n : Nat) : ∀ d ∈ natDigitsRev n, d < 10 := by
  induction n using Nat.strong_induction_on with
  | _ n ih =>
    unfold natDigitsRev
    split
    · rename_i h
      intro d hd
      simp only [List.mem_singleton] at hd
      omega
    · rename_i h
      intro d hd
      simp only [List.mem_cons] at hd
      rcases hd with rfl | hd
      · exact Nat.mod_lt _ (by norm_num)
      · exact ih (n / 10) (Nat.div_lt_self (by omega) (by norm_num)) d hd

theorem natDigitsRev_ne_nil (n : Nat) : natDigitsRev n ≠ [] := by
  unfold natDigitsRev
  split <;> simp

/-- Value of a least-significant-first digit list. -/
def digitsRevVal : List Nat → Nat
  | [] => 0
  | d :: r => d + 10 * digitsRevVal r

theorem digitsRevVal_natDigitsRev (n : Nat) :
    digitsRevVal (natDigitsRev n) = n := by
  induction n using Nat.strong_induction_on with
  | _ n ih =>
    unfold natDigitsRev
    split
    · simp [digitsRevVal]
    · rename_i h
      have := ih (n / 10) (Nat.div_lt_self (by omega) (by norm_num))
      simp only [digitsRevVal, this]
      omega

theorem digitsVal_append (l : List Nat) (d : Nat) :
    digitsVal (l ++ [d]) = 10 * digitsVal l + d := by
  simp [digitsVal, List.foldl_append]

theorem digitsVal_reverse (l : List Nat) :
    digitsVal l.reverse = digitsRevVal l := by
  induction l with
  | nil => rfl
  | cons d r ih =>
    simp only [List.reverse_cons, digitsVal_append, ih, digitsRevVal]
    ring

theorem digitChar_isDigit {d : Nat} (h : d < 10) :
    isDigitCh (digitChar d) = true := by
  interval_cases d <;> decide

theorem digitChar_toNat {d : Nat} (h : d < 10) :
    (digitChar d).toNat - 48 = d := by
  interval_cases d <;> decide

theorem map_toNat_digitChar (ds : List Nat) (hd : ∀ d ∈ ds, d < 10) :
    (ds.map digitChar).map (fun c => c.toNat - 48) = ds := by
  induction ds with
  | nil => rfl
  | cons d r ih =>
    simp only [List.map_cons, List.cons.injEq]
    exact ⟨digitChar_toNat (hd d (List.mem_cons_self d r)),
      ih fun x hx => hd x (List.mem_cons_of_mem d hx)⟩

theorem all_digitChar (ds : List Nat) (hd : ∀ d ∈ ds, d < 10) :
    (ds.map digitChar).all isDigitCh = true := by
  simp only [List.all_eq_true, List.mem_map]
  rintro c ⟨d, hdm, rfl⟩
  exact digitChar_isDigit (hd d hdm)

theorem readNatChars_digits (ds : List Nat) (hne : ds ≠ [])
    (hd : ∀ d ∈ ds, d < 10) :
    readNatChars (ds.map digitChar) = some (digitsVal ds) := by
  unfold readNatChars
  rw [if_neg (by simpa using hne), if_pos (all_digitChar ds hd),
    map_toNat_digitChar ds hd]

theorem readNatChars_cons_zero {cs : List Char} {n : Nat}
    (h : readNatChars cs = some n) :
    readNatChars ('0' :: cs) = some n := by
  unfold readNatChars at h ⊢
  split at h
  · exact absurd h (by simp)
  · split at h
    · rename_i hne hall
      injection h with h
      rw [if_neg (by simp), if_pos (by rw [List.all_cons, hall]; decide)]
      rw [← h]
      congr 1
    · exact absurd h (by simp)

theorem readNat_jsStringOfNat (n : Nat) :
    readNatChars (jsStringOfNat n).data = some n := by
  have hda : ∀ d ∈ (natDigitsRev n).reverse, d < 10 :=
    fun d hd => natDigitsRev_lt n d (List.mem_reverse.mp hd)
  have hne : (natDigitsRev n).reverse ≠ [] := by
    simp [natDigitsRev_ne_nil n]
  have h1 := readNatChars_digits ((natDigitsRev n).reverse) hne hda
  show readNatChars ((natDigitsRev n).reverse.map digitChar) = some n
  rw [h1, digitsVal_reverse, digitsRevVal_natDigitsRev]

theorem natDigitsRev_one {n : Nat} (h : n < 10) : natDigitsRev n = [n] := by
  unfold natDigitsRev
  rw [dif_pos h]

theorem natDigitsRev_two {n : Nat} (h1 : 10 ≤ n) (h2 : n < 100) :
    natDigitsRev n = [n % 10, n / 10] := by
  unfold natDigitsRev
  rw [dif_neg (by omega)]
  rw [natDigitsRev_one (by omega)]

theorem natDigitsRev_four {n : Nat} (h1 : 1000 ≤ n) (h2 : n < 10000) :
    natDigitsRev n = [n % 10, n / 10 % 10, n / 10 / 10 % 10, n / 10 / 10 / 10] := by
  unfold natDigitsRev
  rw [dif_neg (by omega)]
  unfold natDigitsRev
  rw [dif_neg (by omega)]
  rw [natDigitsRev_two (by omega) (by omega)]

theorem pad2_spec (n : Nat) (h2 : n < 100) :
    (padStart2 (jsStringOfNat n)).data.length = 2 ∧
    readNatChars (padStart2 (jsStringOfNat n)).data = some n := by
  by_cases h : n < 10
  · have hjs : (jsStringOfNat n).data = [digitChar n] := by
      simp [jsStringOfNat, natDigitsRev_one h]
    have hpad : (padStart2 (jsStringOfNat n)).data = '0' :: [digitChar n] := by
      simp [padStart2, hjs]
    rw [hpad]
    refine ⟨rfl, ?_⟩
    have hr := readNat_jsStringOfNat n
    rw [hjs] at hr
    exact readNatChars_cons_zero hr
  · have hjs : (jsStringOfNat n).data =
        [digitChar (n / 10), digitChar (n % 10)] := by
      simp [jsStringOfNat, natDigitsRev_two (by omega) h2]
    have hpad : (padStart2 (jsStringOfNat n)).data = (jsStringOfNat n).data := by
      simp [padStart2, hjs]
    rw [hpad, hjs]
    refine ⟨rfl, ?_⟩
    have hr := readNat_jsStringOfNat n
    rw [hjs] at hr
    exact hr

theorem year_spec (y : Nat) (h1 : 1000 ≤ y) (h2 : y < 10000) :
    (jsStringOfNat y).data.length = 4 ∧
    readNatChars (jsStringOfNat y).data = some y := by
  constructor
  · show ((natDigitsRev y).reverse.map digitChar).length = 4
    rw [List.length_map, List.length_reverse, natDigitsRev_four h1 h2]
    rfl
  · exact readNat_jsStringOfNat y

/-- C10: for a valid date with a four-digit year, `toISODateInputString`
zero-pads month and day to exactly two digits, produces a 10-character
string, and the string parses back to the same calendar date. -/
theorem toISODateInputString_correct (d : JsDate)
    (hy1 : 1000 ≤ d.getFullYear) (hy2 : d.getFullYear ≤ 9999)
    (hm : d.getMonth ≤ 11) (hd1 : 1 ≤ d.getDate) (hd2 : d.getDate ≤ 31) :
    (padStart2 (jsStringOfNat (d.getMonth + 1))).length = 2 ∧
    (padStart2 (jsStringOfNat d.getDate)).length = 2 ∧
    (toISODateInputString d).length = 10 ∧
    parseISODateInput (toISODateInputString d) =
      some (d.getFullYear, d.getMonth + 1, d.getDate) := by
  have hynn : (0 : Int) ≤ d.getFullYear := by omega
  have hyy : ((d.getFullYear.toNat : Nat) : Int) = d.getFullYear :=
    Int.toNat_of_nonneg hynn
  have hy1' : 1000 ≤ d.getFullYear.toNat := by omega
  have hy2' : d.getFullYear.toNat < 10000 := by omega
  have hyearstr : jsStringOfInt d.getFullYear = jsStringOfNat d.getFullYear.toNat := by
    simp only [jsStringOfInt]
    rw [if_neg (by omega)]
  obtain ⟨hY4, hYread⟩ := year_spec d.getFullYear.toNat hy1' hy2'
  obtain ⟨hM2, hMread⟩ := pad2_spec (d.getMonth + 1) (by omega)
  obtain ⟨hD2, hDread⟩ := pad2_spec d.getDate (by omega)
  set Y := (jsStringOfNat d.getFullYear.toNat).data with hYdef
  set M := (padStart2 (jsStringOfNat (d.getMonth + 1))).data with hMdef
  set D := (padStart2 (jsStringOfNat d.getDate)).data with hDdef
  have hcs : (toISODateInputString d).data = Y ++ '-' :: (M ++ '-' :: D) := by
    simp only [toISODateInputString, String.data_append, hyearstr]
    show Y ++ ("-" : String).data ++ M ++ ("-" : String).data ++ D = _
    simp
  refine ⟨hM2, hD2, ?_, ?_⟩
  · show (toISODateInputString d).data.length = 10
    rw [hcs]
    simp only [List.length_append, List.length_cons, hY4, hM2, hD2]
  · have hsplit1 : Y ++ '-' :: (M ++ '-' :: D) = (Y ++ ['-']) ++ (M ++ '-' :: D) := by
      rw [List.append_cons Y '-' (M ++ '-' :: D)]
    have hsplit2 : Y ++ '-' :: (M ++ '-' :: D) =
        ((Y ++ ['-']) ++ (M ++ ['-'])) ++ D := by
      rw [hsplit1, List.append_cons M '-' D]
      simp [List.append_assoc]
    have hlen5 : (Y ++ ['-']).length = 5 := by
      simp [hY4]
    have hlen8 : ((Y ++ ['-']) ++ (M ++ ['-'])).length = 8 := by
      simp [hY4, hM2]
    have htake4 : (Y ++ '-' :: (M ++ '-' :: D)).take 4 = Y := by
      have : (Y ++ '-' :: (M ++ '-' :: D)).take Y.length = Y :=
        List.take_left Y ('-' :: (M ++ '-' :: D))
      rwa [hY4] at this
    have hdrop5 : (Y ++ '-' :: (M ++ '-' :: D)).drop 5 = M ++ '-' :: D := by
      rw [hsplit1]
      exact List.drop_left' hlen5
    have htakeM : (M ++ '-' :: D).take 2 = M := by
      have : (M ++ '-' :: D).take M.length = M := List.take_left M ('-' :: D)
      rwa [hM2] at this
    have hdrop8 : (Y ++ '-' :: (M ++ '-' :: D)).drop 8 = D := by
      rw [hsplit2]
      exact List.drop_left' hlen8
    have hget4 : (Y ++ '-' :: (M ++ '-' :: D))[4]? = some '-' := by
      rw [List.getElem?_append_right (by omega : Y.length ≤ 4), hY4]
      simp
    have hget7 : (Y ++ '-' :: (M ++ '-' :: D))[7]? = some '-' := by
      rw [List.getElem?_append_right (by omega : Y.length ≤ 7), hY4]
      show ('-' :: (M ++ '-' :: D))[3]? = some '-'
      rw [List.getElem?_cons_succ]
      rw [List.getElem?_append_right (by omega : M.length ≤ 2), hM2]
      simp
    have hlen10 : (Y ++ '-' :: (M ++ '-' :: D)).length = 10 := by
      simp only [List.length_append, List.length_cons, hY4, hM2, hD2]
    simp only [parseISODateInput, hcs]
    rw [if_pos ⟨hlen10, hget4, hget7⟩]
    rw [htake4, hdrop5, htakeM, hdrop8, hYread, hMread, hDread]
    show some ((d.getFullYear.toNat : Int), d.getMonth + 1, d.getDate) =
      some (d.getFullYear, d.getMonth + 1, d.getDate)
    rw [hyy]

/-- The formatter and parser agree on a concrete date: January 5, 2025. -/
theorem toISODateInputString_correct_witness :
    parseISODateInput (toISODateInputString ⟨2025, 0, 5⟩) =
      some (2025, 1, 5) :=
  (toISODateInputString_correct ⟨2025, 0, 5⟩ (by norm_num) (by norm_num)
    (by norm_num) (by norm_num) (by norm_num)).2.2.2

end CVector
